import Mathlib

/-!
Shallow embedding of the `crisco` URL-shortening HTTP service (Rust, `src/lib.rs`)
and proofs about it.

Modelling conventions:
* Rust machine integers are embedded as `Nat` with explicit `% 2 ^ w` at the points
  where wrapping can occur (djb2 uses `u64`, the Base64 decoder uses `u32`).
* Byte streams and byte buffers are `List Nat` (each element `< 256`).
* Rust `String`/`&str` values are Lean `String`s; where the Rust code works on the
  UTF-8 bytes of a string (hashing, Base64 decoding, length checks) the embedding
  goes through `strBytes`, an explicit UTF-8 encoder.
* The `BASIC_AUTH` environment variable is passed to `handle_post` as an explicit
  argument (`std::env::var(..).unwrap_or_default()` yields `""` when unset, so an
  unset variable is the same as the empty string).
* The `TcpStream` consumed by `parse_req` is a pure byte list; `parse_req` returns
  the parse result together with the bytes it did not consume.
-/

namespace Crisco

/-- Characters for which Rust `char::is_whitespace` returns true
(the Unicode White_Space code points), used by `trim`, `trim_start` and
`split_whitespace` in the source. -/
def wsCodepoints : List Nat :=
  [0x09, 0x0A, 0x0B, 0x0C, 0x0D, 0x20, 0x85, 0xA0, 0x1680,
   0x2000, 0x2001, 0x2002, 0x2003, 0x2004, 0x2005, 0x2006, 0x2007,
   0x2008, 0x2009, 0x200A, 0x2028, 0x2029, 0x202F, 0x205F, 0x3000]

def isRustWhitespace (c : Char) : Bool := c.toNat ∈ wsCodepoints

/-- The `BASE62` alphabet constant from the source, as characters. -/
def base62Chars : List Char :=
  ("0123456789abcdefghijklmnopqrstuvwxyzABCDEFGHIJKLMNOPQRSTUVWXYZ").toList

/-- The `BASE62` alphabet as byte values (the Rust constant is `&[u8; 62]`). -/
def base62Bytes : List Nat := base62Chars.map Char.toNat

/-- The `BASE64` alphabet constant from the source, as byte values. -/
def base64Bytes : List Nat :=
  (("ABCDEFGHIJKLMNOPQRSTUVWXYZabcdefghijklmnopqrstuvwxyz0123456789+/").toList).map
    Char.toNat

/-- UTF-8 encoding of a single code point (standard 1-4 byte encoding).
Used to embed Rust's `str::bytes`/`str::len`, which are byte-based. -/
def utf8EncodeChar (n : Nat) : List Nat :=
  if n < 0x80 then [n]
  else if n < 0x800 then [0xC0 + n / 64, 0x80 + n % 64]
  else if n < 0x10000 then [0xE0 + n / 4096, 0x80 + (n / 64) % 64, 0x80 + n % 64]
  else [0xF0 + n / 262144, 0x80 + (n / 4096) % 64, 0x80 + (n / 64) % 64, 0x80 + n % 64]

/-- The UTF-8 bytes of a string: Rust `s.bytes()` / `s.as_bytes()`; its length is
Rust `s.len()`. -/
def strBytes (s : String) : List Nat :=
  s.toList.flatMap (fun c => utf8EncodeChar c.toNat)

/-- Embeds Rust `str::starts_with` for a string pattern. -/
def strStartsWith (s pat : String) : Bool := pat.toList.isPrefixOf s.toList

/-- Embeds Rust string slicing `&s[..n]` at a character boundary
(used for `base62_str.get(..7)`; `shorten_url` output is pure ASCII). -/
def strTake (s : String) (n : Nat) : String := String.mk (s.toList.take n)

--
-- The hash-to-code encoder: djb2, get_hash_prefix, to_base62, shorten_url
--

/-- One step of the `djb2` loop:
`hash = (hash << 5).wrapping_add(hash) ^ u64::from(byte)` on `u64`. -/
def djb2Step (h b : Nat) : Nat := (((h <<< 5) % 2 ^ 64 + h) % 2 ^ 64) ^^^ b

/-- Embeds `djb2` from the source: fold of `djb2Step` over the UTF-8 bytes,
starting from `5381u64`. -/
def djb2 (bs : List Nat) : Nat := bs.foldl djb2Step 5381

/-- Embeds `get_hash_prefix`: the djb2 hash of the string's bytes masked to its
bottom 48 bits (`& 0x0000_FFFF_FFFF_FFFF`, i.e. `% 2 ^ 48`). -/
def hash48 (s : String) : Nat := djb2 (strBytes s) % 2 ^ 48

/-- Character of the `BASE62` alphabet at an index (`BASE62[i]` in the source). -/
def base62Char (i : Nat) : Char := base62Chars.getD i '0'

/-- The digit-emitting loop of `to_base62` with explicit fuel (the source's
`while n > 0` loop; any fuel at least `n` gives the loop's value, see
`toBase62Aux_irrel`). The source pushes least-significant digits first and
reverses; this recursion produces the same most-significant-first digit list. -/
def toBase62Aux : Nat → Nat → List Char
  | 0, _ => []
  | fuel + 1, n => if n = 0 then [] else toBase62Aux fuel (n / 62) ++ [base62Char (n % 62)]

theorem toBase62Aux_irrel (n : Nat) : ∀ f g, n ≤ f → n ≤ g →
    toBase62Aux f n = toBase62Aux g n := by
  induction n using Nat.strong_induction_on with
  | _ n ih =>
    intro f g hf hg
    by_cases hn : n = 0
    · subst hn
      cases f <;> cases g <;> simp [toBase62Aux]
    · obtain ⟨f₁, rfl⟩ : ∃ f₁, f = f₁ + 1 := ⟨f - 1, by omega⟩
      obtain ⟨g₁, rfl⟩ : ∃ g₁, g = g₁ + 1 := ⟨g - 1, by omega⟩
      simp only [toBase62Aux, hn, if_false]
      have hlt : n / 62 < n := Nat.div_lt_self (Nat.pos_of_ne_zero hn) (by norm_num)
      rw [ih (n / 62) hlt f₁ g₁ (by omega) (by omega)]

/-- The digit list of `n` in Base62, most significant first ([] for `n = 0`). -/
def toBase62Go (n : Nat) : List Char := toBase62Aux n n

theorem toBase62Go_eq (n : Nat) :
    toBase62Go n = if n = 0 then [] else toBase62Go (n / 62) ++ [base62Char (n % 62)] := by
  by_cases hn : n = 0
  · simp [toBase62Go, hn, toBase62Aux]
  · obtain ⟨m, rfl⟩ : ∃ m, n = m + 1 := ⟨n - 1, by omega⟩
    simp only [toBase62Go, toBase62Aux, hn, if_false]
    have hle : (m + 1) / 62 ≤ m := by
      have := Nat.div_lt_self (Nat.succ_pos m) (by norm_num : (1 : Nat) < 62)
      omega
    rw [toBase62Aux_irrel ((m + 1) / 62) m ((m + 1) / 62) hle (le_refl _)]

/-- Embeds `to_base62` from the source: `0` renders as `"0"`, any other value as
its most-significant-first Base62 digits. -/
def to_base62 (n : Nat) : String :=
  if n = 0 then "0" else String.mk (toBase62Go n)

/-- The salted hash input of `shorten_url`: the URL itself on attempt 0,
`format!("{url}:{attempt}")` otherwise. -/
def saltedInput (url : String) (attempt : Nat) : String :=
  if attempt = 0 then url else url ++ ":" ++ toString attempt

/-- Embeds `shorten_url`: Base62 rendering of the 48-bit hash prefix of the salted
input, truncated to at most its first 7 characters (`base62_str.get(..7)` returns
the whole string when it is shorter than 7). -/
def shorten_url (url : String) (attempt : Nat) : String :=
  strTake (to_base62 (hash48 (saltedInput url attempt))) 7

--
-- First sanity lemmas about the encoder
--

theorem toBase62Go_ne_zero (n : Nat) (h : n ≠ 0) :
    toBase62Go n = toBase62Go (n / 62) ++ [base62Char (n % 62)] := by
  rw [toBase62Go_eq]
  simp [h]

theorem toBase62Go_chars (n : Nat) : ∀ c ∈ toBase62Go n, c ∈ base62Chars := by
  induction n using Nat.strong_induction_on with
  | _ n ih =>
    by_cases h : n = 0
    · subst h
      rw [toBase62Go_eq]
      simp
    · rw [toBase62Go_ne_zero n h]
      intro c hc
      rcases List.mem_append.mp hc with h1 | h2
      · exact ih (n / 62) (Nat.div_lt_self (Nat.pos_of_ne_zero h) (by norm_num)) c h1
      · rw [List.mem_singleton.mp h2]
        have hlt : n % 62 < 62 := Nat.mod_lt _ (by norm_num)
        have hall : ∀ i, i < 62 → base62Char i ∈ base62Chars := by decide
        exact hall _ hlt

theorem to_base62_ne_empty (n : Nat) : to_base62 n ≠ "" := by
  unfold to_base62
  by_cases h : n = 0
  · simp [h]
  · simp only [h, if_false]
    intro hcontra
    have hdata : toBase62Go n = [] := by
      have := congrArg String.toList hcontra
      simpa using this
    rw [toBase62Go_ne_zero n h] at hdata
    simp at hdata

theorem to_base62_chars (n : Nat) : ∀ c ∈ (to_base62 n).toList, c ∈ base62Chars := by
  unfold to_base62
  by_cases h : n = 0
  · simp only [h, if_true]
    intro c hc
    simp at hc
    subst hc
    decide
  · simp only [h, if_false]
    intro c hc
    exact toBase62Go_chars n c hc

/-- Claim-supporting shape facts about `shorten_url` outputs. -/
theorem shorten_url_shape (url : String) (attempt : Nat) :
    shorten_url url attempt ≠ "" ∧
    (shorten_url url attempt).toList.length ≤ 7 ∧
    ∀ c ∈ (shorten_url url attempt).toList, c ∈ base62Chars := by
  unfold shorten_url strTake
  set b := to_base62 (hash48 (saltedInput url attempt)) with hb
  refine ⟨?_, ?_, ?_⟩
  · intro hcontra
    have hdata : b.toList.take 7 = [] := by
      have := congrArg String.toList hcontra
      simpa using this
    have hnil : b.toList = [] := by
      cases hcase : b.toList with
      | nil => rfl
      | cons x xs => rw [hcase] at hdata; simp at hdata
    apply to_base62_ne_empty (hash48 (saltedInput url attempt))
    rw [← hb]
    apply String.ext
    simpa using hnil
  · simpa using List.length_take_le 7 b.toList
  · intro c hc
    simp only [String.toList] at hc ⊢
    have : c ∈ b.toList := List.mem_of_mem_take (by simpa using hc)
    exact to_base62_chars _ c this

--
-- Store: the in-memory HashMap<String, String> from short code to URL.
-- A HashMap is embedded as an association list with at most one entry per key;
-- storeGet is HashMap::get, storeInsert is HashMap::insert (replacing any
-- existing entry for the key).
--

abbrev Store := List (String × String)

def storeGet : Store → String → Option String
  | [], _ => none
  | (k, v) :: rest, key => if k = key then some v else storeGet rest key

def storeErase : Store → String → Store
  | [], _ => []
  | (k, v) :: rest, key => if k = key then rest else (k, v) :: storeErase rest key

def storeInsert (s : Store) (key v : String) : Store := (key, v) :: storeErase s key

/-- Number of entries of the store holding the given key. -/
def countKey : Store → String → Nat
  | [], _ => 0
  | (pk, _) :: rest, key => (if pk = key then 1 else 0) + countKey rest key

/-- The HashMap representation invariant: one entry per key. -/
def storeWF (s : Store) : Prop := (s.map Prod.fst).Nodup

instance (s : Store) : Decidable (storeWF s) := by
  unfold storeWF
  infer_instance

--
-- HTTP data model
--

structure HttpRequest where
  method : String
  path : String
  headers : List (String × String)
  body : String
deriving DecidableEq

/-- A structured view of the response strings the handlers write: status line
code, headers in order of the `format!` templates, body. -/
structure Response where
  status : Nat
  headers : List (String × String)
  body : String
deriving DecidableEq

/-- Rust `msg.len()`: the UTF-8 byte length, rendered in decimal for the
`Content-Length` header. -/
def contentLengthOfBody (s : String) : String := toString (strBytes s).length

def rootMsg : String := "Try POST with \x7b\"url\": \"https://...\"\x7d"

/-- Response written by `handle_root`. -/
def rootResponse : Response :=
  { status := 200,
    headers := [("Content-Type", "text/plain"),
                ("Content-Length", contentLengthOfBody rootMsg), ("Connection", "close")],
    body := rootMsg }

/-- Response written by `redirect_to_root`. -/
def redirectRootResponse : Response :=
  { status := 303,
    headers := [("Location", "/"), ("Content-Length", "0"), ("Connection", "close")],
    body := "" }

/-- The 302 response of `handle_get` for a code present in the store. -/
def foundResponse (url : String) : Response :=
  { status := 302,
    headers := [("Location", url), ("Content-Length", "0"), ("Connection", "close")],
    body := "" }

/-- The 500 response of `handle_post` (missing credentials or collision cap). -/
def serverErrorResponse : Response :=
  { status := 500, headers := [("Content-Length", "0"), ("Connection", "close")], body := "" }

/-- The 401 response of `handle_post`. -/
def unauthorizedResponse : Response :=
  { status := 401,
    headers := [("WWW-Authenticate", "Basic"), ("Content-Length", "0"), ("Connection", "close")],
    body := "" }

/-- The 200 response of `handle_post` carrying the short code. -/
def okResponse (short : String) : Response :=
  { status := 200,
    headers := [("Content-Type", "text/plain"),
                ("Content-Length", contentLengthOfBody short), ("Connection", "close")],
    body := short }

def missingUrlMsg : String := "Missing or invalid URL in request body"

/-- The 400 response of `handle_post` for a missing or invalid URL field. -/
def badUrlResponse : Response :=
  { status := 400,
    headers := [("Content-Type", "text/plain"),
                ("Content-Length", contentLengthOfBody missingUrlMsg), ("Connection", "close")],
    body := missingUrlMsg }

--
-- Case-insensitive header lookup
--

def asciiLower (c : Char) : Char :=
  if 65 ≤ c.toNat ∧ c.toNat ≤ 90 then Char.ofNat (c.toNat + 32) else c

def asciiUpperChar (c : Char) : Char :=
  if 97 ≤ c.toNat ∧ c.toNat ≤ 122 then Char.ofNat (c.toNat - 32) else c

/-- Embeds `str::eq_ignore_ascii_case`. -/
def eqIgnoreAsciiCase (s t : String) : Bool :=
  s.toList.map asciiLower == t.toList.map asciiLower

/-- Embeds `str::to_ascii_uppercase`. -/
def asciiUppercase (s : String) : String := String.mk (s.toList.map asciiUpperChar)

/-- `headers.iter().find(|(k, _)| k.eq_ignore_ascii_case(name))`, value part. -/
def findHeader (headers : List (String × String)) (name : String) : Option String :=
  (headers.find? (fun p => eqIgnoreAsciiCase p.1 name)).map Prod.snd

--
-- Base64 decoding (check_basic_auth helper)
--

/-- `decode_map[b]`: the index of byte `b` in the `BASE64` alphabet. Only used
under the guard `b ∈ base64Bytes`, like the source's `decode_map` lookup. -/
def base64Index (b : Nat) : Nat := base64Bytes.indexOf b

/-- The loop of `base64_decode`. `buf` is the source's `u32` bit buffer (wrapped
explicitly at `2 ^ 32`), `bits` the number of pending bits, `output` the bytes
emitted so far. `=` (byte 61) breaks out of the loop; a byte outside the
alphabet aborts with `None`. -/
def base64DecodeGo : List Nat → Nat → Nat → List Nat → Option (List Nat)
  | [], _, _, output => some output
  | b :: rest, buf, bits, output =>
    if b = 61 then some output
    else if base64Bytes.contains b then
      let buf1 := ((buf <<< 6) ||| base64Index b) % 2 ^ 32
      let bits1 := bits + 6
      if bits1 ≥ 8 then
        let bits2 := bits1 - 8
        base64DecodeGo rest (buf1 % 2 ^ bits2) bits2 (output ++ [(buf1 >>> bits2) % 256])
      else base64DecodeGo rest buf1 bits1 output
    else none

/-- Embeds `base64_decode` from the source, over the input's bytes. -/
def base64_decode (bs : List Nat) : Option (List Nat) := base64DecodeGo bs 0 0 []

--
-- Strict UTF-8 decoding (embeds str::from_utf8 / String::from_utf8 validation)
--

/-- Strict (RFC 3629) UTF-8 decoder: rejects continuation-byte starts, overlong
encodings (including `0xC0`/`0xC1`), surrogates (`0xED 0xA0..`), and code points
above `U+10FFFF`, exactly the inputs Rust's `str::from_utf8` rejects. -/
def utf8Decode : List Nat → Option (List Char)
  | [] => some []
  | b :: rest =>
    if b < 0x80 then (utf8Decode rest).map (fun cs => Char.ofNat b :: cs)
    else if b < 0xC2 then none
    else if b < 0xE0 then
      match rest with
      | b2 :: rest2 =>
        if 0x80 ≤ b2 ∧ b2 < 0xC0 then
          (utf8Decode rest2).map (fun cs => Char.ofNat ((b - 0xC0) * 64 + (b2 - 0x80)) :: cs)
        else none
      | [] => none
    else if b < 0xF0 then
      match rest with
      | b2 :: b3 :: rest3 =>
        if (0x80 ≤ b2 ∧ b2 < 0xC0) ∧ (0x80 ≤ b3 ∧ b3 < 0xC0) ∧
            (b ≠ 0xE0 ∨ 0xA0 ≤ b2) ∧ (b ≠ 0xED ∨ b2 < 0xA0) then
          (utf8Decode rest3).map (fun cs =>
            Char.ofNat ((b - 0xE0) * 4096 + (b2 - 0x80) * 64 + (b3 - 0x80)) :: cs)
        else none
      | _ => none
    else if b < 0xF5 then
      match rest with
      | b2 :: b3 :: b4 :: rest4 =>
        if (0x80 ≤ b2 ∧ b2 < 0xC0) ∧ (0x80 ≤ b3 ∧ b3 < 0xC0) ∧ (0x80 ≤ b4 ∧ b4 < 0xC0) ∧
            (b ≠ 0xF0 ∨ 0x90 ≤ b2) ∧ (b ≠ 0xF4 ∨ b2 < 0x90) then
          (utf8Decode rest4).map (fun cs =>
            Char.ofNat ((b - 0xF0) * 262144 + (b2 - 0x80) * 4096 +
              (b3 - 0x80) * 64 + (b4 - 0x80)) :: cs)
        else none
      | _ => none
    else none

--
-- Credential gate
--

/-- Embeds Rust string slicing `&s[n..]` at a character boundary (used for
`&auth[6..]` after the ASCII prefix check). -/
def strDrop (s : String) (n : Nat) : String := String.mk (s.toList.drop n)

/-- Embeds `check_basic_auth`. `unwrap_or_default` on the decode result and on
the UTF-8 conversion become `getD` with the empty default. -/
def check_basic_auth (headers : List (String × String)) (expected : String) : Bool :=
  let auth := (findHeader headers ("Authorization")).getD ""
  if strStartsWith auth ("Basic ") then
    let decodedBytes := (base64_decode (strBytes (strDrop auth 6))).getD []
    let decoded := ((utf8Decode decodedBytes).map String.mk).getD ""
    if decoded.isEmpty then false else decoded == expected
  else false

--
-- URL extraction from the POST body
--

/-- The literal key `"url":` searched for by `extract_url`. -/
def urlKey : List Char := ("\"url\":").toList

/-- Embeds `str::find` for a literal pattern: index of the first occurrence. -/
def listFind (pat : List Char) (hay : List Char) : Option Nat :=
  if pat.isPrefixOf hay then some 0
  else
    match hay with
    | [] => none
    | _ :: t => (listFind pat t).map (fun i => i + 1)

/-- Embeds `extract_url`: find `"url":`, skip whitespace, require an opening
quote, take everything up to the next quote, and accept only `http://` or
`https://` values. Offsets are character offsets; every slice the source takes
lies on a character boundary (the matched key and the quotes are ASCII), so the
extracted text is the same. -/
def extract_url (body : String) : Option String :=
  match listFind urlKey body.toList with
  | none => none
  | some i =>
    let remainder := (body.toList.drop (i + 6)).dropWhile isRustWhitespace
    match remainder with
    | [] => none
    | c :: rest =>
      if c = '"' then
        match listFind ['"'] rest with
        | none => none
        | some e =>
          let url := String.mk (rest.take e)
          if strStartsWith url ("http://") || strStartsWith url ("https://") then some url
          else none
      else none

/-- `extract_url` with every slice the source takes (`&body[start..]`,
`&remainder[1..]`, `&remainder[1..=end]`) guarded by its bound check: `none`
models an out-of-range slice (a Rust panic), `some r` a normal return of `r`. -/
def extract_url_checked (body : String) : Option (Option String) :=
  match listFind urlKey body.toList with
  | none => some none
  | some i =>
    if i + 6 ≤ body.toList.length then
      let remainder := (body.toList.drop (i + 6)).dropWhile isRustWhitespace
      match remainder with
      | [] => some none
      | c :: rest =>
        if c = '"' then
          if 1 ≤ (c :: rest).length then
            match listFind ['"'] rest with
            | none => some none
            | some e =>
              if e + 1 ≤ (c :: rest).length then
                let url := String.mk (rest.take e)
                if strStartsWith url ("http://") || strStartsWith url ("https://") then
                  some (some url)
                else some none
              else none
          else none
        else some none
    else none

--
-- Handlers
--

/-- The collision loop of `handle_post`: `attempt` is the salt counter, the
fuel argument counts the candidates still allowed. The source starts at
attempt 0 and aborts once `attempt > 10`, i.e. it examines the candidates of
attempts 0 through 10 — eleven in all — so the loop is entered with fuel 11.
`some short` is a usable code (absent, or mapped to this very URL); `none` is
collision-cap exhaustion. -/
def findCode (store : Store) (url : String) : Nat → Nat → Option String
  | _, 0 => none
  | attempt, fuel + 1 =>
    let short := shorten_url url attempt
    match storeGet store short with
    | none => some short
    | some existing =>
      if existing = url then some short else findCode store url (attempt + 1) fuel

/-- Embeds `req.path.trim_start_matches('/')`: strip all leading slashes. -/
def stripSlashes (path : String) : String :=
  String.mk (path.toList.dropWhile (fun c => c == '/'))

/-- The malformed-code test of `handle_get`:
`short.is_empty() || short.len() > 7 || !short.is_ascii() ||
!short.bytes().all(|b| BASE62.contains(&b))`, all byte-based. -/
def malformedCode (short : String) : Bool :=
  (strBytes short).isEmpty || decide (7 < (strBytes short).length) ||
    !((strBytes short).all (fun b => decide (b < 128))) ||
    !((strBytes short).all (fun b => decide (b ∈ base62Bytes)))

/-- Embeds `handle_get`. The response is returned instead of written to the
socket; the store is read-only here. -/
def handle_get (store : Store) (req : HttpRequest) : Response :=
  if req.path = "/" then rootResponse
  else
    let short := stripSlashes req.path
    if malformedCode short then redirectRootResponse
    else
      match storeGet store short with
      | some url => foundResponse url
      | none => redirectRootResponse

/-- Embeds `handle_post`. `expectedAuth` is the value of the `BASIC_AUTH`
environment variable (empty when unset); the function returns the response
together with the store after the request. -/
def handle_post (expectedAuth : String) (store : Store) (req : HttpRequest) :
    Response × Store :=
  if expectedAuth.isEmpty then (serverErrorResponse, store)
  else if !(check_basic_auth req.headers expectedAuth) then (unauthorizedResponse, store)
  else
    match extract_url req.body with
    | some url =>
      match findCode store url 0 11 with
      | some short => (okResponse short, storeInsert store short url)
      | none => (serverErrorResponse, store)
    | none => (badUrlResponse, store)

--
-- Parse errors and the error handler
--

/-- The `ReqParseError` enum. Variants that wrap a library error
(`IoError`, `ParseIntError`, `Utf8Error`) carry the text their payload would
render with `Display`. -/
inductive ReqParseError where
  | ConnectionClosed
  | InvalidMethod
  | InvalidReqLine
  | IoError (msg : String)
  | OversizedBody
  | ParseIntError (msg : String)
  | Utf8Error (msg : String)
deriving DecidableEq

instance {ε α : Type} [DecidableEq ε] [DecidableEq α] : DecidableEq (Except ε α) :=
  fun a b =>
    match a, b with
    | .ok x, .ok y => decidable_of_iff (x = y) (by simp)
    | .error e, .error f => decidable_of_iff (e = f) (by simp)
    | .ok _, .error _ => isFalse (by simp)
    | .error _, .ok _ => isFalse (by simp)

/-- The `Display` implementation for `ReqParseError`. -/
def reqParseErrorMsg : ReqParseError → String
  | .ConnectionClosed => "Connection closed by client"
  | .InvalidMethod => "Invalid HTTP method"
  | .InvalidReqLine => "Invalid request line"
  | .IoError m => m
  | .OversizedBody => "Request body is too large"
  | .ParseIntError m => m
  | .Utf8Error m => m

/-- Embeds `handle_err`: I/O errors map to 500, everything else to 400, with
the error description as the plain-text body. -/
def handle_err (e : ReqParseError) : Response :=
  match e with
  | .IoError m =>
    { status := 500,
      headers := [("Content-Type", "text/plain"),
                  ("Content-Length", contentLengthOfBody m), ("Connection", "close")],
      body := m }
  | _ =>
    { status := 400,
      headers := [("Content-Type", "text/plain"),
                  ("Content-Length", contentLengthOfBody (reqParseErrorMsg e)),
                  ("Connection", "close")],
      body := reqParseErrorMsg e }

--
-- Request parser
--

/-- Number of bytes one `read_line` call consumes from the capped header
reader: up to and including the first `\n` (byte 10), but at most `limit`
bytes (the remaining `take(MAX_HEADER)` budget) and at most the stream. -/
def lineLen : List Nat → Nat → Nat
  | _, 0 => 0
  | [], _ + 1 => 0
  | b :: rest, limit + 1 => if b = 10 then 1 else 1 + lineLen rest limit

theorem lineLen_le (data : List Nat) (limit : Nat) : lineLen data limit ≤ data.length := by
  induction data generalizing limit with
  | nil => cases limit <;> simp [lineLen]
  | cons b rest ih =>
    cases limit with
    | zero => simp [lineLen]
    | succ l =>
      by_cases hb : b = 10 <;> simp [lineLen, hb]
      have := ih l
      omega

theorem lineLen_ne_zero (data : List Nat) (limit : Nat) (h : lineLen data limit ≠ 0) :
    data ≠ [] := by
  intro hd
  apply h
  rw [hd]
  cases limit <;> simp [lineLen]

/-- `Display` text of the `InvalidData` I/O error `read_line` produces on
invalid UTF-8. -/
def invalidUtf8StreamMsg : String := "stream did not contain valid UTF-8"

/-- Stand-in for the position-specific `Display` text of `FromUtf8Error`
(the exact text depends on the byte index and is not used by any claim). -/
def invalidUtf8BodyMsg : String := "invalid utf-8 sequence in request body"

/-- `Display` text of the `UnexpectedEof` error `read_exact` produces on a
short read. -/
def failedFillMsg : String := "failed to fill whole buffer"

def errEmptyInt : String := "cannot parse integer from empty string"

def errInvalidDigit : String := "invalid digit found in string"

def errPosOverflow : String := "number too large to fit in target type"

/-- The `split_whitespace` accumulator loop (splits on Unicode whitespace and
discards empty tokens). -/
def splitWsAux : List Char → List Char → List String
  | [], acc => if acc.isEmpty then [] else [String.mk acc.reverse]
  | c :: rest, acc =>
    if isRustWhitespace c then
      if acc.isEmpty then splitWsAux rest []
      else String.mk acc.reverse :: splitWsAux rest []
    else splitWsAux rest (c :: acc)

/-- Embeds `str::split_whitespace().collect()`. -/
def splitWhitespaceStr (cs : List Char) : List String := splitWsAux cs []

/-- Embeds `str::trim`: strip Unicode whitespace from both ends. -/
def trimChars (cs : List Char) : List Char :=
  ((cs.dropWhile isRustWhitespace).reverse.dropWhile isRustWhitespace).reverse

/-- Embeds `str::split_once(':')`. -/
def splitOnceColon : List Char → Option (List Char × List Char)
  | [] => none
  | c :: rest =>
    if c = ':' then some ([], rest)
    else (splitOnceColon rest).map (fun p => (c :: p.1, p.2))

/-- Numeric value of a decimal digit string. -/
def digitsVal (ds : List Char) : Nat := ds.foldl (fun acc c => acc * 10 + (c.toNat - 48)) 0

/-- Embeds `str::parse::<usize>()` on a 64-bit target: an optional leading `+`
(a lone sign, a non-digit — including `-` for this unsigned type — or overflow
past `2 ^ 64 - 1` fail with the corresponding `ParseIntError` text). -/
def parseUsize (s : String) : Except String Nat :=
  match s.toList with
  | [] => .error errEmptyInt
  | c :: cs =>
    if (c = '+' ∨ c = '-') ∧ cs.isEmpty then .error errInvalidDigit
    else
      let ds := if c = '+' then cs else c :: cs
      if ds.all (fun d => decide ('0' ≤ d ∧ d ≤ '9')) then
        if digitsVal ds < 2 ^ 64 then .ok (digitsVal ds) else .error errPosOverflow
      else .error errInvalidDigit

/-- Reading and validation of the request line (the first phase of
`parse_req`): the parse outcome, the unconsumed stream, and the remaining
header-region budget out of `MAX_HEADER = 8192`. -/
def parseReqLine (data : List Nat) :
    Except ReqParseError (String × String) × List Nat × Nat :=
  let n := lineLen data 8192
  if n = 0 then (.error .ConnectionClosed, data, 8192)
  else
    match utf8Decode (data.take n) with
    | none => (.error (.IoError invalidUtf8StreamMsg), data.drop n, 8192 - n)
    | some cs =>
      let parts := splitWhitespaceStr cs
      if parts.length < 2 then (.error .InvalidReqLine, data.drop n, 8192 - n)
      else
        let method := asciiUppercase (parts.getD 0 "")
        if method ≠ "GET" ∧ method ≠ "POST" then
          (.error .InvalidMethod, data.drop n, 8192 - n)
        else (.ok (method, parts.getD 1 ""), data.drop n, 8192 - n)

/-- Header pair collected from one decoded line: `split_once(':')` with both
sides trimmed; a line without `:` contributes nothing. -/
def headerOfLine (cs : List Char) : List (String × String) :=
  match splitOnceColon cs with
  | some p => [(String.mk (trimChars p.1), String.mk (trimChars p.2))]
  | none => []

/-- The header loop of `parse_req` with explicit fuel (each iteration consumes
at least one byte, so any fuel above the stream length gives the loop's value,
see `readHeadersAux_irrel`): reads lines from the capped region until the
exact line `"\r\n"`, collecting trimmed `k: v` pairs (lines without `:` are
ignored); a `read_line` that yields no bytes — cap exhausted or stream ended —
is `ConnectionClosed`, invalid UTF-8 is an I/O error. Returns the outcome plus
the unconsumed stream. -/
def readHeadersAux :
    Nat → List Nat → Nat → Except ReqParseError (List (String × String)) × List Nat
  | 0, data, _ => (.error .ConnectionClosed, data)
  | fuel + 1, data, limit =>
    if lineLen data limit = 0 then (.error .ConnectionClosed, data)
    else
      match utf8Decode (data.take (lineLen data limit)) with
      | none => (.error (.IoError invalidUtf8StreamMsg), data.drop (lineLen data limit))
      | some cs =>
        if cs = ['\r', '\n'] then (.ok [], data.drop (lineLen data limit))
        else
          match readHeadersAux fuel (data.drop (lineLen data limit))
              (limit - lineLen data limit) with
          | (.ok hs, rest) => (.ok (headerOfLine cs ++ hs), rest)
          | (.error e, rest) => (.error e, rest)

theorem readHeadersAux_irrel : ∀ (L : Nat) (data : List Nat), data.length ≤ L →
    ∀ limit f g, data.length < f → data.length < g →
    readHeadersAux f data limit = readHeadersAux g data limit := by
  intro L
  induction L with
  | zero =>
    intro data hL limit f g hf hg
    have hdata : data = [] := List.length_eq_zero.mp (by omega)
    subst hdata
    obtain ⟨f₁, rfl⟩ : ∃ f₁, f = f₁ + 1 := ⟨f - 1, by omega⟩
    obtain ⟨g₁, rfl⟩ : ∃ g₁, g = g₁ + 1 := ⟨g - 1, by omega⟩
    have : lineLen [] limit = 0 := by cases limit <;> simp [lineLen]
    simp [readHeadersAux, this]
  | succ L ih =>
    intro data hL limit f g hf hg
    obtain ⟨f₁, rfl⟩ : ∃ f₁, f = f₁ + 1 := ⟨f - 1, by omega⟩
    obtain ⟨g₁, rfl⟩ : ∃ g₁, g = g₁ + 1 := ⟨g - 1, by omega⟩
    simp only [readHeadersAux]
    by_cases h : lineLen data limit = 0
    · simp [h]
    · simp only [h, if_false]
      cases hdec : utf8Decode (data.take (lineLen data limit)) with
      | none => rfl
      | some cs =>
        by_cases hcs : cs = ['\r', '\n']
        · simp [hcs]
        · simp only [hcs, if_false]
          have hlen : (data.drop (lineLen data limit)).length = data.length - lineLen data limit :=
            List.length_drop _ _
          have hle : lineLen data limit ≤ data.length := lineLen_le data limit
          have hpos : 0 < data.length :=
            List.length_pos.mpr (lineLen_ne_zero data limit h)
          rw [ih (data.drop (lineLen data limit)) (by omega) (limit - lineLen data limit)
            f₁ g₁ (by omega) (by omega)]

/-- The header loop of `parse_req` (fuel instantiated to a sufficient value). -/
def readHeaders (data : List Nat) (limit : Nat) :
    Except ReqParseError (List (String × String)) × List Nat :=
  readHeadersAux (data.length + 1) data limit

/-- One-step unfolding of `readHeaders`, mirroring the source loop. -/
theorem readHeaders_eq (data : List Nat) (limit : Nat) :
    readHeaders data limit =
      if lineLen data limit = 0 then (.error .ConnectionClosed, data)
      else
        match utf8Decode (data.take (lineLen data limit)) with
        | none => (.error (.IoError invalidUtf8StreamMsg), data.drop (lineLen data limit))
        | some cs =>
          if cs = ['\r', '\n'] then (.ok [], data.drop (lineLen data limit))
          else
            match readHeaders (data.drop (lineLen data limit))
                (limit - lineLen data limit) with
            | (.ok hs, rest) => (.ok (headerOfLine cs ++ hs), rest)
            | (.error e, rest) => (.error e, rest)
  := by
  show readHeadersAux (data.length + 1) data limit = _
  simp only [readHeadersAux]
  by_cases h : lineLen data limit = 0
  · simp [h]
  · simp only [h, if_false]
    cases hdec : utf8Decode (data.take (lineLen data limit)) with
    | none => rfl
    | some cs =>
      by_cases hcs : cs = ['\r', '\n']
      · simp [hcs]
      · simp only [hcs, if_false]
        have hlen : (data.drop (lineLen data limit)).length = data.length - lineLen data limit :=
          List.length_drop _ _
        have hle : lineLen data limit ≤ data.length := lineLen_le data limit
        have hpos : 0 < data.length :=
          List.length_pos.mpr (lineLen_ne_zero data limit h)
        rw [show readHeaders (data.drop (lineLen data limit)) (limit - lineLen data limit) =
            readHeadersAux (data.length) (data.drop (lineLen data limit))
              (limit - lineLen data limit) from
          readHeadersAux_irrel (data.length) _ (by omega) _ _ _ (by omega) (by omega)]

/-- Embeds `parse_req` over a pure byte stream, returning the parse result
together with the bytes the parser did not consume. The request line and the
header lines share the `take(MAX_HEADER)` budget of 8192 bytes; the body is
read past that cap from the underlying reader. -/
def parse_req (data : List Nat) : Except ReqParseError HttpRequest × List Nat :=
  match parseReqLine data with
  | (.error e, rest, _) => (.error e, rest)
  | (.ok mp, rest1, lim) =>
    match readHeaders rest1 lim with
    | (.error e, rest2) => (.error e, rest2)
    | (.ok headers, rest2) =>
      let clStr := (findHeader headers ("Content-Length")).getD "0"
      match parseUsize clStr with
      | .error m => (.error (.ParseIntError m), rest2)
      | .ok contentLength =>
        if contentLength > 102400 then (.error .OversizedBody, rest2)
        else if contentLength ≤ rest2.length then
          match utf8Decode (rest2.take contentLength) with
          | none => (.error (.Utf8Error invalidUtf8BodyMsg), rest2.drop contentLength)
          | some cs =>
            (.ok { method := mp.1, path := mp.2, headers := headers,
                   body := String.mk cs },
             rest2.drop contentLength)
        else (.error (.IoError failedFillMsg), [])

/-- Fuel-indexed form of `headerRegionOverflow` (see there). -/
def headerRegionOverflowAux : Nat → List Nat → Nat → Bool
  | 0, _, _ => false
  | fuel + 1, data, limit =>
    if lineLen data limit = 0 then !data.isEmpty
    else
      decide (data.take (lineLen data limit) ≠ [13, 10]) &&
        headerRegionOverflowAux fuel (data.drop (lineLen data limit))
          (limit - lineLen data limit)

theorem headerRegionOverflowAux_irrel : ∀ (L : Nat) (data : List Nat), data.length ≤ L →
    ∀ limit f g, data.length < f → data.length < g →
    headerRegionOverflowAux f data limit = headerRegionOverflowAux g data limit := by
  intro L
  induction L with
  | zero =>
    intro data hL limit f g hf hg
    have hdata : data = [] := List.length_eq_zero.mp (by omega)
    subst hdata
    obtain ⟨f₁, rfl⟩ : ∃ f₁, f = f₁ + 1 := ⟨f - 1, by omega⟩
    obtain ⟨g₁, rfl⟩ : ∃ g₁, g = g₁ + 1 := ⟨g - 1, by omega⟩
    have : lineLen [] limit = 0 := by cases limit <;> simp [lineLen]
    simp [headerRegionOverflowAux, this]
  | succ L ih =>
    intro data hL limit f g hf hg
    obtain ⟨f₁, rfl⟩ : ∃ f₁, f = f₁ + 1 := ⟨f - 1, by omega⟩
    obtain ⟨g₁, rfl⟩ : ∃ g₁, g = g₁ + 1 := ⟨g - 1, by omega⟩
    simp only [headerRegionOverflowAux]
    by_cases h : lineLen data limit = 0
    · simp [h]
    · simp only [h, if_false]
      have hlen : (data.drop (lineLen data limit)).length = data.length - lineLen data limit :=
        List.length_drop _ _
      have hle : lineLen data limit ≤ data.length := lineLen_le data limit
      have hpos : 0 < data.length :=
        List.length_pos.mpr (lineLen_ne_zero data limit h)
      rw [ih (data.drop (lineLen data limit)) (by omega) (limit - lineLen data limit)
        f₁ g₁ (by omega) (by omega)]

/-- Renders the raw-stream hypothesis of the header-cap claim: decomposing the
capped header region (request line included) into `read_line` pieces runs the
`limit` budget out while bytes remain unread, without ever meeting the exact
terminator line `\r\n` (bytes `[13, 10]`). -/
def headerRegionOverflow (data : List Nat) (limit : Nat) : Bool :=
  headerRegionOverflowAux (data.length + 1) data limit

theorem headerRegionOverflow_eq (data : List Nat) (limit : Nat) :
    headerRegionOverflow data limit =
      if lineLen data limit = 0 then !data.isEmpty
      else
        decide (data.take (lineLen data limit) ≠ [13, 10]) &&
          headerRegionOverflow (data.drop (lineLen data limit))
            (limit - lineLen data limit) := by
  show headerRegionOverflowAux (data.length + 1) data limit = _
  simp only [headerRegionOverflowAux]
  by_cases h : lineLen data limit = 0
  · simp [h]
  · simp only [h, if_false]
    have hlen : (data.drop (lineLen data limit)).length = data.length - lineLen data limit :=
      List.length_drop _ _
    have hle : lineLen data limit ≤ data.length := lineLen_le data limit
    have hpos : 0 < data.length :=
      List.length_pos.mpr (lineLen_ne_zero data limit h)
    rw [show headerRegionOverflow (data.drop (lineLen data limit))
          (limit - lineLen data limit) =
        headerRegionOverflowAux data.length (data.drop (lineLen data limit))
          (limit - lineLen data limit) from
      headerRegionOverflowAux_irrel data.length _ (by omega) _ _ _ (by omega) (by omega)]

/-- Fuel-indexed form of `noTerminatorBeforeExhaustion` (see there). -/
def noTerminatorAux : Nat → List Nat → Nat → Bool
  | 0, _, _ => true
  | fuel + 1, data, limit =>
    if lineLen data limit = 0 then true
    else
      match utf8Decode (data.take (lineLen data limit)) with
      | none => false
      | some cs =>
        decide (cs ≠ ['\r', '\n']) &&
          noTerminatorAux fuel (data.drop (lineLen data limit))
            (limit - lineLen data limit)

theorem noTerminatorAux_irrel : ∀ (L : Nat) (data : List Nat), data.length ≤ L →
    ∀ limit f g, data.length < f → data.length < g →
    noTerminatorAux f data limit = noTerminatorAux g data limit := by
  intro L
  induction L with
  | zero =>
    intro data hL limit f g hf hg
    have hdata : data = [] := List.length_eq_zero.mp (by omega)
    subst hdata
    obtain ⟨f₁, rfl⟩ : ∃ f₁, f = f₁ + 1 := ⟨f - 1, by omega⟩
    obtain ⟨g₁, rfl⟩ : ∃ g₁, g = g₁ + 1 := ⟨g - 1, by omega⟩
    have : lineLen [] limit = 0 := by cases limit <;> simp [lineLen]
    simp [noTerminatorAux, this]
  | succ L ih =>
    intro data hL limit f g hf hg
    obtain ⟨f₁, rfl⟩ : ∃ f₁, f = f₁ + 1 := ⟨f - 1, by omega⟩
    obtain ⟨g₁, rfl⟩ : ∃ g₁, g = g₁ + 1 := ⟨g - 1, by omega⟩
    simp only [noTerminatorAux]
    by_cases h : lineLen data limit = 0
    · simp [h]
    · simp only [h, if_false]
      cases hdec : utf8Decode (data.take (lineLen data limit)) with
      | none => rfl
      | some cs =>
        have hlen : (data.drop (lineLen data limit)).length = data.length - lineLen data limit :=
          List.length_drop _ _
        have hle : lineLen data limit ≤ data.length := lineLen_le data limit
        have hpos : 0 < data.length :=
          List.length_pos.mpr (lineLen_ne_zero data limit h)
        rw [ih (data.drop (lineLen data limit)) (by omega) (limit - lineLen data limit)
          f₁ g₁ (by omega) (by omega)]

/-- Hypothesis of the amended header-cap claim: after the request line, the
line decomposition of the remaining capped region is exhausted (cap reached or
stream ended) before the terminator line `"\r\n"` appears, and every line read
on the way is valid UTF-8. -/
def noTerminatorBeforeExhaustion (data : List Nat) (limit : Nat) : Bool :=
  noTerminatorAux (data.length + 1) data limit

theorem noTerminatorBeforeExhaustion_eq (data : List Nat) (limit : Nat) :
    noTerminatorBeforeExhaustion data limit =
      if lineLen data limit = 0 then true
      else
        match utf8Decode (data.take (lineLen data limit)) with
        | none => false
        | some cs =>
          decide (cs ≠ ['\r', '\n']) &&
            noTerminatorBeforeExhaustion (data.drop (lineLen data limit))
              (limit - lineLen data limit) := by
  show noTerminatorAux (data.length + 1) data limit = _
  simp only [noTerminatorAux]
  by_cases h : lineLen data limit = 0
  · simp [h]
  · simp only [h, if_false]
    cases hdec : utf8Decode (data.take (lineLen data limit)) with
    | none => rfl
    | some cs =>
      have hlen : (data.drop (lineLen data limit)).length = data.length - lineLen data limit :=
        List.length_drop _ _
      have hle : lineLen data limit ≤ data.length := lineLen_le data limit
      have hpos : 0 < data.length :=
        List.length_pos.mpr (lineLen_ne_zero data limit h)
      rw [show noTerminatorBeforeExhaustion (data.drop (lineLen data limit))
            (limit - lineLen data limit) =
          noTerminatorAux data.length (data.drop (lineLen data limit))
            (limit - lineLen data limit) from
        noTerminatorAux_irrel data.length _ (by omega) _ _ _ (by omega) (by omega)]

--
-- Store lemmas
--

theorem storeGet_insert_self (s : Store) (k v : String) :
    storeGet (storeInsert s k v) k = some v := by
  simp [storeInsert, storeGet]

theorem storeGet_erase_ne (s : Store) (k key : String) (h : key ≠ k) :
    storeGet (storeErase s k) key = storeGet s key := by
  induction s with
  | nil => simp [storeErase]
  | cons p rest ih =>
    obtain ⟨pk, pv⟩ := p
    by_cases hpk : pk = k
    · subst hpk
      have hne : pk ≠ key := fun hh => h (hh ▸ rfl)
      simp [storeErase, storeGet, hne]
    · by_cases hpkey : pk = key <;> simp [storeErase, storeGet, hpk, hpkey, ih, h]

theorem storeGet_insert_ne (s : Store) (k v key : String) (h : key ≠ k) :
    storeGet (storeInsert s k v) key = storeGet s key := by
  have hne : k ≠ key := fun hh => h (hh ▸ rfl)
  simp [storeInsert, storeGet, hne, storeGet_erase_ne s k key h]

theorem storeInsert_insert (s : Store) (k v : String) :
    storeInsert (storeInsert s k v) k v = storeInsert s k v := by
  simp [storeInsert, storeErase]

theorem countKey_eq_zero_of_not_mem (s : Store) (k : String)
    (h : k ∉ s.map Prod.fst) : countKey s k = 0 := by
  induction s with
  | nil => simp [countKey]
  | cons p rest ih =>
    obtain ⟨pk, pv⟩ := p
    simp only [List.map_cons, List.mem_cons] at h
    push_neg at h
    have hne : pk ≠ k := fun hh => h.1 (hh ▸ rfl)
    simp only [countKey, if_neg hne]
    simpa using ih h.2

theorem countKey_erase_zero (s : Store) (k : String) (h : storeWF s) :
    countKey (storeErase s k) k = 0 := by
  induction s with
  | nil => simp [storeErase, countKey]
  | cons p rest ih =>
    obtain ⟨pk, pv⟩ := p
    simp only [storeWF, List.map_cons, List.nodup_cons] at h
    by_cases hpk : pk = k
    · subst hpk
      simp only [storeErase, if_pos rfl]
      exact countKey_eq_zero_of_not_mem rest pk h.1
    · simp only [storeErase, if_neg hpk, countKey]
      rw [ih h.2]

theorem countKey_insert (s : Store) (k v : String) (h : storeWF s) :
    countKey (storeInsert s k v) k = 1 := by
  simp only [storeInsert, countKey]
  rw [countKey_erase_zero s k h]
  simp

--
-- UTF-8 byte-level lemmas
--

theorem utf8EncodeChar_ne_nil (n : Nat) : utf8EncodeChar n ≠ [] := by
  unfold utf8EncodeChar
  split_ifs <;> simp

theorem utf8EncodeChar_ascii (n : Nat) (h : n < 128) : utf8EncodeChar n = [n] := by
  unfold utf8EncodeChar
  rw [if_pos h]

theorem utf8EncodeChar_head_large (n : Nat) (h : 128 ≤ n) :
    ∃ b ∈ utf8EncodeChar n, 128 ≤ b := by
  unfold utf8EncodeChar
  split_ifs with h1 h2 h3
  · omega
  · refine ⟨0xC0 + n / 64, by simp, by omega⟩
  · refine ⟨0xE0 + n / 4096, by simp, by omega⟩
  · refine ⟨0xF0 + n / 262144, by simp, by omega⟩

theorem flatMapBytes_length (cs : List Char) :
    cs.length ≤ (cs.flatMap (fun c => utf8EncodeChar c.toNat)).length := by
  induction cs with
  | nil => simp
  | cons c rest ih =>
    have h1 : 1 ≤ (utf8EncodeChar c.toNat).length :=
      List.length_pos.mpr (utf8EncodeChar_ne_nil c.toNat)
    simp only [List.flatMap_cons, List.length_append, List.length_cons]
    omega

theorem strBytes_length_ge (s : String) : s.toList.length ≤ (strBytes s).length :=
  flatMapBytes_length s.toList

theorem flatMapBytes_ascii (cs : List Char) (h : ∀ c ∈ cs, c.toNat < 128) :
    cs.flatMap (fun c => utf8EncodeChar c.toNat) = cs.map Char.toNat := by
  induction cs with
  | nil => simp
  | cons c rest ih =>
    simp only [List.mem_cons, forall_eq_or_imp] at h
    simp only [List.flatMap_cons, List.map_cons, utf8EncodeChar_ascii c.toNat h.1]
    rw [ih h.2]
    rfl

theorem strBytes_ascii (s : String) (h : ∀ c ∈ s.toList, c.toNat < 128) :
    strBytes s = s.toList.map Char.toNat :=
  flatMapBytes_ascii s.toList h

theorem strBytes_mem_of_char_mem (s : String) (c : Char) (hc : c ∈ s.toList) :
    ∀ b ∈ utf8EncodeChar c.toNat, b ∈ strBytes s := by
  intro b hb
  unfold strBytes
  rw [List.mem_flatMap]
  exact ⟨c, hc, hb⟩

theorem char_toNat_inj (c d : Char) (h : c.toNat = d.toNat) : c = d := by
  apply Char.ext
  exact UInt32.ext h

theorem base62Chars_ascii : ∀ c ∈ base62Chars, c.toNat < 128 := by decide

theorem slash_not_base62 : '/' ∉ base62Chars := by decide

/-- A string whose characters all lie in the Base62 alphabet has its character
codes as UTF-8 bytes, in particular as many bytes as characters. -/
theorem strBytes_of_base62 (s : String) (h : ∀ c ∈ s.toList, c ∈ base62Chars) :
    strBytes s = s.toList.map Char.toNat :=
  strBytes_ascii s (fun c hc => base62Chars_ascii c (h c hc))

/-- If every UTF-8 byte of `s` is below 128 and lies in `base62Bytes`, then
every character of `s` lies in `base62Chars`. -/
theorem chars_base62_of_bytes (s : String)
    (hlt : ∀ b ∈ strBytes s, b < 128) (hb : ∀ b ∈ strBytes s, b ∈ base62Bytes) :
    ∀ c ∈ s.toList, c ∈ base62Chars := by
  intro c hc
  have hascii : c.toNat < 128 := by
    by_contra hge
    push_neg at hge
    obtain ⟨b, hbmem, hbge⟩ := utf8EncodeChar_head_large c.toNat hge
    have := hlt b (strBytes_mem_of_char_mem s c hc b hbmem)
    omega
  have hmem : c.toNat ∈ strBytes s := by
    apply strBytes_mem_of_char_mem s c hc
    rw [utf8EncodeChar_ascii c.toNat hascii]
    simp
  have : c.toNat ∈ base62Bytes := hb _ hmem
  unfold base62Bytes at this
  rw [List.mem_map] at this
  obtain ⟨d, hd, hdn⟩ := this
  rwa [← char_toNat_inj d c hdn]

--
-- findCode lemmas
--

theorem findCode_some (store : Store) (url : String) :
    ∀ fuel attempt c, findCode store url attempt fuel = some c →
      (∃ k, k < fuel ∧ c = shorten_url url (attempt + k)) ∧
      (storeGet store c = none ∨ storeGet store c = some url) := by
  intro fuel
  induction fuel with
  | zero => intro a c h; simp [findCode] at h
  | succ fuel ih =>
    intro a c h
    simp only [findCode] at h
    cases hget : storeGet store (shorten_url url a) with
    | none =>
      simp only [hget] at h
      obtain rfl : shorten_url url a = c := Option.some.inj h
      exact ⟨⟨0, by omega, by simp⟩, Or.inl hget⟩
    | some existing =>
      simp only [hget] at h
      by_cases he : existing = url
      · rw [if_pos he] at h
        obtain rfl : shorten_url url a = c := Option.some.inj h
        exact ⟨⟨0, by omega, by simp⟩, Or.inr (he ▸ hget)⟩
      · rw [if_neg he] at h
        obtain ⟨⟨k, hk, hc⟩, hd⟩ := ih (a + 1) c h
        refine ⟨⟨k + 1, by omega, ?_⟩, hd⟩
        rw [hc]
        congr 1
        omega

theorem findCode_insert (store : Store) (url : String) :
    ∀ fuel attempt c, findCode store url attempt fuel = some c →
      findCode (storeInsert store c url) url attempt fuel = some c := by
  intro fuel
  induction fuel with
  | zero => intro a c h; simp [findCode] at h
  | succ fuel ih =>
    intro a c h
    simp only [findCode] at h ⊢
    cases hget : storeGet store (shorten_url url a) with
    | none =>
      simp only [hget] at h
      obtain rfl : shorten_url url a = c := Option.some.inj h
      simp [storeGet_insert_self]
    | some existing =>
      simp only [hget] at h
      by_cases he : existing = url
      · rw [if_pos he] at h
        obtain rfl : shorten_url url a = c := Option.some.inj h
        simp [storeGet_insert_self]
      · rw [if_neg he] at h
        have hne : shorten_url url a ≠ c := by
          intro heq
          rcases (findCode_some store url fuel (a + 1) c h).2 with h1 | h1 <;>
            rw [← heq, hget] at h1
          · exact Option.noConfusion h1
          · exact he (Option.some.inj h1)
        simp only [storeGet_insert_ne store c url (shorten_url url a) hne, hget, if_neg he]
        exact ih (a + 1) c h

theorem findCode_none_iff (store : Store) (url : String) :
    ∀ fuel attempt, findCode store url attempt fuel = none ↔
      ∀ k, k < fuel →
        ∃ v, storeGet store (shorten_url url (attempt + k)) = some v ∧ v ≠ url := by
  intro fuel
  induction fuel with
  | zero =>
    intro a
    simp [findCode]
  | succ fuel ih =>
    intro a
    simp only [findCode]
    cases hget : storeGet store (shorten_url url a) with
    | none =>
      simp only [hget]
      constructor
      · intro h; exact Option.noConfusion h
      · intro h
        obtain ⟨v, hv, _⟩ := h 0 (by omega)
        rw [Nat.add_zero, hget] at hv
        exact Option.noConfusion hv
    | some existing =>
      simp only [hget]
      by_cases he : existing = url
      · rw [if_pos he]
        constructor
        · intro h; exact Option.noConfusion h
        · intro h
          obtain ⟨v, hv, hvne⟩ := h 0 (by omega)
          rw [Nat.add_zero, hget] at hv
          exact ((hvne ((Option.some.inj hv).symm.trans he))).elim
      · rw [if_neg he, ih (a + 1)]
        constructor
        · intro h k hk
          cases k with
          | zero => exact ⟨existing, by rw [Nat.add_zero]; exact hget, he⟩
          | succ k =>
            have := h k (by omega)
            rwa [show a + 1 + k = a + (k + 1) by omega] at this
        · intro h k hk
          have := h (k + 1) (by omega)
          rwa [show a + (k + 1) = a + 1 + k by omega] at this

--
-- Lemmas about the malformed-code guard of handle_get
--

theorem malformedCode_false (short : String) (h : malformedCode short = false) :
    strBytes short ≠ [] ∧ (strBytes short).length ≤ 7 ∧
    (∀ b ∈ strBytes short, b < 128) ∧ (∀ b ∈ strBytes short, b ∈ base62Bytes) := by
  unfold malformedCode at h
  simp only [Bool.or_eq_false_iff] at h
  obtain ⟨⟨⟨h1, h2⟩, h3⟩, h4⟩ := h
  simp at h1 h2 h3 h4
  exact ⟨h1, by omega, h3, h4⟩

theorem malformedCode_false_chars (short : String) (h : malformedCode short = false) :
    ∀ c ∈ short.toList, c ∈ base62Chars :=
  chars_base62_of_bytes short (malformedCode_false short h).2.2.1
    (malformedCode_false short h).2.2.2

theorem malformedCode_false_of_base62 (short : String) (hne : short.toList ≠ [])
    (hlen : short.toList.length ≤ 7) (hchars : ∀ c ∈ short.toList, c ∈ base62Chars) :
    malformedCode short = false := by
  have hb : strBytes short = short.toList.map Char.toNat := strBytes_of_base62 short hchars
  have e1 : (strBytes short).isEmpty = false := by
    rw [hb]
    cases hcase : short.toList with
    | nil => exact absurd hcase hne
    | cons a l => simp
  have e2 : decide (7 < (strBytes short).length) = false := by
    apply decide_eq_false
    rw [hb, List.length_map]
    omega
  have e3 : ((strBytes short).all (fun b => decide (b < 128))) = true := by
    rw [List.all_eq_true]
    intro b hbm
    apply decide_eq_true
    rw [hb, List.mem_map] at hbm
    obtain ⟨c, hc, rfl⟩ := hbm
    exact base62Chars_ascii c (hchars c hc)
  have e4 : ((strBytes short).all (fun b => decide (b ∈ base62Bytes))) = true := by
    rw [List.all_eq_true]
    intro b hbm
    apply decide_eq_true
    rw [hb, List.mem_map] at hbm
    obtain ⟨c, hc, rfl⟩ := hbm
    exact List.mem_map_of_mem Char.toNat (hchars c hc)
  unfold malformedCode
  rw [e1, e2, e3, e4]
  rfl

--
-- Claim C5
--

/-- Claim C5 (encoder output shape): for every input string and every attempt
counter, the shortener's output is a non-empty string of at most 7 characters
drawn from the Base62 alphabet (truncated, never padded), and a 48-bit hash
value of exactly 0 renders as the single character "0", never as the empty
string. -/
theorem c5_encoder_output_shape (s : String) (attempt : Nat) :
    shorten_url s attempt ≠ "" ∧
    (shorten_url s attempt).toList.length ≤ 7 ∧
    (∀ c ∈ (shorten_url s attempt).toList, c ∈ base62Chars) ∧
    to_base62 0 = "0" := by
  obtain ⟨h1, h2, h3⟩ := shorten_url_shape s attempt
  exact ⟨h1, h2, h3, by decide⟩

/-- Witness for C5: the claim applied at a concrete URL and attempt, with the
character-membership hypothesis discharged on the computed code. -/
theorem c5_encoder_output_shape_witness :
    shorten_url ("https://example.com") 0 ≠ "" ∧ '1' ∈ base62Chars :=
  ⟨(c5_encoder_output_shape ("https://example.com") 0).1,
   (c5_encoder_output_shape ("https://example.com") 0).2.2.1 '1' (by decide)⟩

--
-- Claim C4
--

/-- Claim C4 (malformed GET routing): for every GET request whose path is not
"/" and whose code portion (the path with its leading slashes stripped) is
empty, longer than 7 characters, contains a character outside the Base62
alphabet (a '/' anywhere in it included), or is not a key of the store, the
response is the 303 redirect to "/" — never a 500 and never a 302. -/
theorem c4_malformed_get_routing (store : Store) (req : HttpRequest)
    (hroot : req.path ≠ "/")
    (hbad : stripSlashes req.path = "" ∨ 7 < (stripSlashes req.path).toList.length ∨
      (∃ c ∈ (stripSlashes req.path).toList, c ∉ base62Chars) ∨
      storeGet store (stripSlashes req.path) = none) :
    handle_get store req = redirectRootResponse ∧
    redirectRootResponse.status = 303 ∧
    ("Location", "/") ∈ redirectRootResponse.headers ∧
    (handle_get store req).status ≠ 500 ∧ (handle_get store req).status ≠ 302 := by
  have hmain : handle_get store req = redirectRootResponse := by
    unfold handle_get
    rw [if_neg hroot]
    cases hm : malformedCode (stripSlashes req.path) with
    | true => simp [hm]
    | false =>
      simp only [hm, Bool.false_eq_true, if_false]
      have hch := malformedCode_false_chars _ hm
      obtain ⟨hne, hlen, _, _⟩ := malformedCode_false _ hm
      rcases hbad with h | h | h | h
      · exact absurd (by rw [h]; rfl) hne
      · have := strBytes_length_ge (stripSlashes req.path)
        omega
      · obtain ⟨c, hc, hcn⟩ := h
        exact absurd (hch c hc) hcn
      · simp [h]
  refine ⟨hmain, rfl, by simp [redirectRootResponse], ?_, ?_⟩ <;> rw [hmain] <;> decide

/-- Witness for C4: a GET for the 8-character path "/abcdefgh" against the
empty store redirects to "/". -/
theorem c4_malformed_get_routing_witness :
    handle_get [] ⟨"GET", "/abcdefgh", [], ""⟩ = redirectRootResponse ∧
    redirectRootResponse.status = 303 ∧
    ("Location", "/") ∈ redirectRootResponse.headers ∧
    (handle_get [] ⟨"GET", "/abcdefgh", [], ""⟩).status ≠ 500 ∧
    (handle_get [] ⟨"GET", "/abcdefgh", [], ""⟩).status ≠ 302 :=
  c4_malformed_get_routing [] ⟨"GET", "/abcdefgh", [], ""⟩ (by decide)
    (Or.inr (Or.inl (by decide)))

--
-- listFind lemmas (for the extract_url claims)
--

theorem listFind_prefix (pat : List Char) :
    ∀ (hay : List Char) i, listFind pat hay = some i →
      pat.isPrefixOf (hay.drop i) = true := by
  intro hay
  induction hay with
  | nil =>
    intro i h
    unfold listFind at h
    by_cases hp : pat.isPrefixOf ([] : List Char) = true
    · rw [if_pos hp] at h
      obtain rfl : 0 = i := Option.some.inj h
      exact hp
    · rw [if_neg hp] at h
      exact Option.noConfusion h
  | cons c t ih =>
    intro i h
    unfold listFind at h
    by_cases hp : pat.isPrefixOf (c :: t) = true
    · rw [if_pos hp] at h
      obtain rfl : 0 = i := Option.some.inj h
      exact hp
    · rw [if_neg hp] at h
      have h2 : Option.map (fun k => k + 1) (listFind pat t) = some i := h
      cases hf : listFind pat t with
      | none => rw [hf] at h2; exact Option.noConfusion h2
      | some j =>
        rw [hf] at h2
        simp only [Option.map_some'] at h2
        obtain rfl : j + 1 = i := Option.some.inj h2
        exact ih j hf

theorem listFind_lt_length (pat hay : List Char) (i : Nat)
    (h : listFind pat hay = some i) (hne : pat ≠ []) : i < hay.length := by
  have hp := listFind_prefix pat hay i h
  have hd : hay.drop i ≠ [] := by
    intro hnil
    rw [hnil] at hp
    cases pat with
    | nil => exact hne rfl
    | cons a b => simp [List.isPrefixOf] at hp
  have hnot : ¬hay.length ≤ i := fun hle => hd (List.drop_eq_nil_of_le hle)
  omega

theorem listFind_add_length_le (pat hay : List Char) (i : Nat)
    (h : listFind pat hay = some i) (hne : pat ≠ []) :
    i + pat.length ≤ hay.length := by
  have hp := listFind_prefix pat hay i h
  have hpre := List.isPrefixOf_iff_prefix.mp hp
  have h1 := hpre.length_le
  have h2 : (hay.drop i).length = hay.length - i := List.length_drop _ _
  have h3 := listFind_lt_length pat hay i h hne
  omega

--
-- Claim C10
--

/-- Claim C10 (extract_url is total): on every input string, every slice
`extract_url` takes is in bounds — `extract_url_checked`, which guards each
slice of the source with its bound check, never reports an out-of-range slice
and agrees with `extract_url` — and a `some` result always starts with
`http://` or `https://`. -/
theorem c10_extract_url_total (body : String) :
    extract_url_checked body = some (extract_url body) ∧
    ∀ u, extract_url body = some u →
      (strStartsWith u ("http://") || strStartsWith u ("https://")) = true := by
  constructor
  · cases hf : listFind urlKey body.toList with
    | none => simp only [extract_url_checked, extract_url, hf]
    | some i =>
      have hle : i + 6 ≤ body.toList.length := by
        have := listFind_add_length_le urlKey body.toList i hf (by decide)
        have hkey : urlKey.length = 6 := by decide
        omega
      simp only [extract_url_checked, extract_url, hf, if_pos hle]
      cases hrem : (body.toList.drop (i + 6)).dropWhile isRustWhitespace with
      | nil => rfl
      | cons c rest =>
        by_cases hc : c = '"'
        · simp only [if_pos hc, if_pos (show 1 ≤ (c :: rest).length by simp)]
          cases hq : listFind ['"'] rest with
          | none => rfl
          | some e =>
            have he : e < rest.length := listFind_lt_length ['"'] rest e hq (by decide)
            have hle2 : e + 1 ≤ (c :: rest).length := by simp; omega
            simp only [if_pos hle2]
            cases hs : strStartsWith (String.mk (rest.take e)) ("http://") ||
                strStartsWith (String.mk (rest.take e)) ("https://") with
            | true => simp [hs]
            | false => simp [hs]
        · simp only [if_neg hc]
  · intro u hu
    cases hf : listFind urlKey body.toList with
    | none =>
      simp only [extract_url, hf] at hu
      exact Option.noConfusion hu
    | some i =>
      simp only [extract_url, hf] at hu
      cases hrem : (body.toList.drop (i + 6)).dropWhile isRustWhitespace with
      | nil => simp only [hrem] at hu; exact Option.noConfusion hu
      | cons c rest =>
        simp only [hrem] at hu
        by_cases hc : c = '"'
        · rw [if_pos hc] at hu
          cases hq : listFind ['"'] rest with
          | none => simp only [hq] at hu; exact Option.noConfusion hu
          | some e =>
            simp only [hq] at hu
            cases hs : strStartsWith (String.mk (rest.take e)) ("http://") ||
                strStartsWith (String.mk (rest.take e)) ("https://") with
            | true =>
              rw [if_pos hs] at hu
              obtain rfl : String.mk (rest.take e) = u := Option.some.inj hu
              exact hs
            | false =>
              rw [if_neg (by simp [hs])] at hu
              exact Option.noConfusion hu
        · rw [if_neg hc] at hu
          exact Option.noConfusion hu

/-- Witness for C10: the checked extractor agrees on a concrete body holding a
URL that appears at the very end of the body, and the prefix condition holds on
the extracted value. -/
theorem c10_extract_url_total_witness :
    extract_url_checked ("\x7b\"url\": \"https://e\"\x7d") =
      some (some ("https://e")) ∧
    (strStartsWith ("https://e") ("http://") ||
      strStartsWith ("https://e") ("https://")) = true := by
  constructor
  · have h := (c10_extract_url_total ("\x7b\"url\": \"https://e\"\x7d")).1
    rw [h]
    decide
  · exact (c10_extract_url_total ("\x7b\"url\": \"https://e\"\x7d")).2
      ("https://e") (by decide)

--
-- Claim C6
--

/-- Claim C6 (POST auth gate): for every POST request, an unset or empty
configured secret yields a 500 regardless of headers; with a set secret, a
failing gate yields a 401 carrying `WWW-Authenticate: Basic`, and the gate
fails whenever the Authorization header is missing, lacks the literal
`"Basic "` prefix, fails Base64 decoding after it (a character outside the
alphabet before any `=`), or decodes to text different from the secret. -/
theorem c6_post_auth_gate (expected : String) (store : Store) (req : HttpRequest) :
    ((handle_post ("") store req).1.status = 500) ∧
    (expected ≠ "" → check_basic_auth req.headers expected = false →
      (handle_post expected store req).1.status = 401 ∧
      ("WWW-Authenticate", "Basic") ∈ (handle_post expected store req).1.headers) ∧
    (findHeader req.headers ("Authorization") = none →
      check_basic_auth req.headers expected = false) ∧
    (∀ auth, findHeader req.headers ("Authorization") = some auth →
      strStartsWith auth ("Basic ") = false →
      check_basic_auth req.headers expected = false) ∧
    (∀ auth, findHeader req.headers ("Authorization") = some auth →
      base64_decode (strBytes (strDrop auth 6)) = none →
      check_basic_auth req.headers expected = false) ∧
    (∀ auth bs cs, findHeader req.headers ("Authorization") = some auth →
      base64_decode (strBytes (strDrop auth 6)) = some bs →
      utf8Decode bs = some cs → String.mk cs ≠ expected →
      check_basic_auth req.headers expected = false) := by
  refine ⟨?_, ?_, ?_, ?_, ?_, ?_⟩
  · unfold handle_post
    rw [if_pos (by decide : ("").isEmpty = true)]
    rfl
  · intro hne hfail
    have hemp : expected.isEmpty = false := by
      cases hval : expected.isEmpty
      · rfl
      · exact absurd ((String.isEmpty_iff expected).mp hval) hne
    unfold handle_post
    simp only [hemp, Bool.false_eq_true, if_false, hfail, Bool.not_false, if_true]
    exact ⟨rfl, by simp [unauthorizedResponse]⟩
  · intro hfind
    unfold check_basic_auth
    rw [hfind]
    rfl
  · intro auth hfind hpre
    unfold check_basic_auth
    rw [hfind]
    simp only [Option.getD_some, hpre, Bool.false_eq_true, if_false]
  · intro auth hfind hdec
    unfold check_basic_auth
    rw [hfind]
    simp only [Option.getD_some]
    by_cases hpre : strStartsWith auth ("Basic ") = true
    · simp only [hpre, if_true, hdec, Option.getD_none]
      rfl
    · simp only [if_neg hpre]
  · intro auth bs cs hfind hdec hutf hne
    unfold check_basic_auth
    rw [hfind]
    simp only [Option.getD_some]
    by_cases hpre : strStartsWith auth ("Basic ") = true
    · simp only [hpre, if_true, hdec, Option.getD_some, hutf, Option.map_some']
      by_cases hemp : (String.mk cs).isEmpty = true
      · simp only [hemp, if_true]
      · rw [if_neg hemp]
        exact beq_eq_false_iff_ne.mpr hne
    · simp only [if_neg hpre]

/-- Witness for C6: concrete 500 with the secret unset, and concrete 401 with
`WWW-Authenticate: Basic` for a request with no Authorization header. -/
theorem c6_post_auth_gate_witness :
    (handle_post ("") [] ⟨"POST", "/", [], ""⟩).1.status = 500 ∧
    (handle_post ("alice:wonderland") [] ⟨"POST", "/", [], ""⟩).1.status = 401 ∧
    ("WWW-Authenticate", "Basic") ∈
      (handle_post ("alice:wonderland") [] ⟨"POST", "/", [], ""⟩).1.headers :=
  ⟨(c6_post_auth_gate ("") [] ⟨"POST", "/", [], ""⟩).1,
   ((c6_post_auth_gate ("alice:wonderland") [] ⟨"POST", "/", [], ""⟩).2.1
      (by decide) (by decide)).1,
   ((c6_post_auth_gate ("alice:wonderland") [] ⟨"POST", "/", [], ""⟩).2.1
      (by decide) (by decide)).2⟩

--
-- Claim C9 (corrected: the claim as stated ignores the auth gate)
--

/-- Claim C9 as amended: every POST request that passes the Basic-auth gate
(non-empty configured secret, matching credentials) and whose body lacks a
valid URL field receives a 400 response whose body is the fixed plain-text
message "Missing or invalid URL in request body", with the store unchanged. -/
theorem c9_invalid_url_post_response (expected : String) (store : Store)
    (req : HttpRequest) (hne : expected ≠ "")
    (hauth : check_basic_auth req.headers expected = true)
    (hurl : extract_url req.body = none) :
    handle_post expected store req = (badUrlResponse, store) ∧
    badUrlResponse.status = 400 ∧
    badUrlResponse.body = "Missing or invalid URL in request body" := by
  have hemp : expected.isEmpty = false := by
    cases hval : expected.isEmpty
    · rfl
    · exact absurd ((String.isEmpty_iff expected).mp hval) hne
  unfold handle_post
  simp only [hemp, Bool.false_eq_true, if_false, hauth, Bool.not_true, if_false, hurl]
  exact ⟨trivial, rfl, rfl⟩

/-- Counterexample for C9 as stated: a POST whose body lacks a valid URL field
but which carries no credentials receives a 401, not the 400 with the fixed
message — so "every POST request" fails; the auth gate runs first. -/
theorem c9_invalid_url_post_response_counterexample :
    extract_url ("") = none ∧
    (handle_post ("alice:wonderland") [] ⟨"POST", "/", [], ""⟩).1.status = 401 ∧
    (handle_post ("alice:wonderland") [] ⟨"POST", "/", [], ""⟩).1.status ≠ 400 ∧
    (handle_post ("alice:wonderland") [] ⟨"POST", "/", [], ""⟩).1.body ≠
      "Missing or invalid URL in request body" := by
  refine ⟨by decide, by decide, by decide, by decide⟩

/-- Witness for the amended C9: an authenticated POST (secret `a`, header
`Basic YQ==`) with a URL-free body gets exactly the fixed 400 response. -/
theorem c9_invalid_url_post_response_witness :
    handle_post ("a") [] ⟨"POST", "/", [("Authorization", "Basic YQ==")], "nothing"⟩ =
      (badUrlResponse, []) ∧
    badUrlResponse.status = 400 ∧
    badUrlResponse.body = "Missing or invalid URL in request body" :=
  c9_invalid_url_post_response ("a") []
    ⟨"POST", "/", [("Authorization", "Basic YQ==")], "nothing"⟩
    (by decide) (by decide) (by decide)

--
-- handle_post characterization lemmas
--

theorem handle_post_eq_of_auth (expected : String) (store : Store) (req : HttpRequest)
    (hemp : expected.isEmpty = false)
    (hauth : check_basic_auth req.headers expected = true) :
    handle_post expected store req =
      match extract_url req.body with
      | some url =>
        match findCode store url 0 11 with
        | some short => (okResponse short, storeInsert store short url)
        | none => (serverErrorResponse, store)
      | none => (badUrlResponse, store) := by
  unfold handle_post
  rw [if_neg (by simp [hemp]), if_neg (by simp [hauth])]

theorem handle_post_200 (expected : String) (store : Store) (req : HttpRequest)
    (h : (handle_post expected store req).1.status = 200) :
    expected.isEmpty = false ∧ check_basic_auth req.headers expected = true ∧
    ∃ url c, extract_url req.body = some url ∧ findCode store url 0 11 = some c ∧
      handle_post expected store req = (okResponse c, storeInsert store c url) := by
  cases hemp : expected.isEmpty with
  | true =>
    unfold handle_post at h
    rw [if_pos hemp] at h
    simp [serverErrorResponse] at h
  | false =>
    cases hauth : check_basic_auth req.headers expected with
    | false =>
      unfold handle_post at h
      rw [if_neg (by simp [hemp]), if_pos (by simp [hauth])] at h
      simp [unauthorizedResponse] at h
    | true =>
      have heq := handle_post_eq_of_auth expected store req hemp hauth
      rw [heq] at h
      cases hurl : extract_url req.body with
      | none =>
        simp only [hurl] at h
        simp [badUrlResponse] at h
      | some url =>
        simp only [hurl] at h heq
        cases hfc : findCode store url 0 11 with
        | none =>
          simp only [hfc] at h
          simp [serverErrorResponse] at h
        | some c =>
          simp only [hfc] at heq
          exact ⟨rfl, rfl, url, c, rfl, hfc, heq⟩

/-- Facts about a code produced by the collision loop: non-empty, at most 7
characters, all Base62. -/
theorem findCode_code_shape (store : Store) (url : String) (fuel attempt : Nat)
    (c : String) (h : findCode store url attempt fuel = some c) :
    c.toList ≠ [] ∧ c.toList.length ≤ 7 ∧ ∀ ch ∈ c.toList, ch ∈ base62Chars := by
  obtain ⟨⟨k, _, rfl⟩, _⟩ := findCode_some store url fuel attempt c h
  obtain ⟨h1, h2, h3⟩ := shorten_url_shape url (attempt + k)
  refine ⟨?_, h2, h3⟩
  intro hnil
  apply h1
  apply String.ext
  simpa using hnil

--
-- Claim C1
--

/-- Claim C1 (round trip): if a POST whose body carries a valid `"url"` field
succeeds with status 200 and short code `c` as its body, then a GET for the
path `"/" ++ c` against the store left by the POST responds 302 with a
`Location` header equal to the original URL, byte for byte. -/
theorem c1_round_trip (expected : String) (store : Store) (req : HttpRequest)
    (url : String) (hurl : extract_url req.body = some url)
    (h200 : (handle_post expected store req).1.status = 200) :
    handle_get (handle_post expected store req).2
      ⟨"GET", "/" ++ (handle_post expected store req).1.body, [], ""⟩ =
      foundResponse url ∧
    (foundResponse url).status = 302 ∧
    ("Location", url) ∈ (foundResponse url).headers := by
  obtain ⟨hemp, hauth, url2, c, hurl2, hfc, heq⟩ := handle_post_200 expected store req h200
  obtain rfl : url = url2 := Option.some.inj (hurl.symm.trans hurl2)
  obtain ⟨hcne, hclen, hcchars⟩ := findCode_code_shape store url 11 0 c hfc
  rw [heq]
  have hbody : (okResponse c, storeInsert store c url).1.body = c := rfl
  rw [hbody]
  have htl : ("/" ++ c).toList = '/' :: c.toList := rfl
  have hpath : ("/" ++ c) ≠ "/" := by
    intro hcontra
    apply hcne
    have := congrArg String.toList hcontra
    rw [htl] at this
    simpa using this
  have hstrip : stripSlashes ("/" ++ c) = c := by
    unfold stripSlashes
    rw [htl]
    rw [List.dropWhile_cons]
    simp only [beq_self_eq_true, if_true]
    cases hcl : c.toList with
    | nil => exact absurd hcl hcne
    | cons d rest =>
      have hd : d ∈ base62Chars := hcchars d (by rw [hcl]; simp)
      have hdne : (d == '/') = false := by
        simp only [beq_eq_false_iff_ne]
        intro hcontra
        rw [hcontra] at hd
        exact slash_not_base62 hd
      rw [List.dropWhile_cons, hdne]
      simp only [Bool.false_eq_true, if_false]
      rw [← hcl]
      apply String.ext
      rfl
  have hmal : malformedCode c = false :=
    malformedCode_false_of_base62 c hcne hclen hcchars
  constructor
  · unfold handle_get
    rw [if_neg hpath]
    simp only [hstrip, hmal, Bool.false_eq_true, if_false,
      storeGet_insert_self]
  · exact ⟨rfl, by simp [foundResponse]⟩

/-- Witness for C1: a concrete authenticated POST of `https://e` followed by a
GET of the returned code 302-redirects to `https://e`. -/
theorem c1_round_trip_witness :
    handle_get
      (handle_post ("a") []
        ⟨"POST", "/", [("Authorization", "Basic YQ==")],
          "\x7b\"url\": \"https://e\"\x7d"⟩).2
      ⟨"GET",
        "/" ++ (handle_post ("a") []
          ⟨"POST", "/", [("Authorization", "Basic YQ==")],
            "\x7b\"url\": \"https://e\"\x7d"⟩).1.body, [], ""⟩ =
      foundResponse ("https://e") ∧
    (foundResponse ("https://e")).status = 302 ∧
    ("Location", "https://e") ∈ (foundResponse ("https://e")).headers :=
  c1_round_trip ("a") []
    ⟨"POST", "/", [("Authorization", "Basic YQ==")], "\x7b\"url\": \"https://e\"\x7d"⟩
    ("https://e") (by decide) (by decide)

--
-- Claim C3
--

/-- Claim C3 (collision-cap bound): once an authenticated POST reaches the
collision loop with URL `url`, the loop examines exactly the candidates
`shorten_url url a` for attempts `a = 0` through `10` — the unsalted encode
plus the salted encodes of `url ++ ":" ++ a` — eleven in all: it responds 500
with the store unchanged (no insert) precisely when every one of those
candidates is already mapped in the store to a different URL. -/
theorem c3_collision_cap (expected : String) (store : Store) (req : HttpRequest)
    (url : String) (hne : expected ≠ "")
    (hauth : check_basic_auth req.headers expected = true)
    (hurl : extract_url req.body = some url) :
    ((∀ a, a ≤ 10 → ∃ v, storeGet store (shorten_url url a) = some v ∧ v ≠ url) →
      handle_post expected store req = (serverErrorResponse, store)) ∧
    (handle_post expected store req = (serverErrorResponse, store) →
      ∀ a, a ≤ 10 → ∃ v, storeGet store (shorten_url url a) = some v ∧ v ≠ url) ∧
    serverErrorResponse.status = 500 := by
  have hemp : expected.isEmpty = false := by
    cases hval : expected.isEmpty
    · rfl
    · exact absurd ((String.isEmpty_iff expected).mp hval) hne
  have heq := handle_post_eq_of_auth expected store req hemp hauth
  simp only [hurl] at heq
  have hiff := findCode_none_iff store url 11 0
  simp only [Nat.zero_add] at hiff
  refine ⟨?_, ?_, rfl⟩
  · intro hall
    have hnone : findCode store url 0 11 = none := by
      rw [hiff]
      intro k hk
      exact hall k (by omega)
    rw [heq]
    simp only [hnone]
  · intro hres a ha
    cases hfc : findCode store url 0 11 with
    | none =>
      have := hiff.mp hfc a (by omega)
      exact this
    | some c =>
      rw [heq] at hres
      simp only [hfc] at hres
      have hstat := congrArg (fun p => p.1.status) hres
      simp [okResponse, serverErrorResponse] at hstat

/-- Witness for C3: a store holding every one of the eleven candidate codes
for `https://e` mapped to a different URL makes the authenticated POST answer
500 and leave the store unchanged. -/
theorem c3_collision_cap_witness :
    handle_post ("a") ((List.range 11).map (fun a => (shorten_url ("https://e") a, "x")))
      ⟨"POST", "/", [("Authorization", "Basic YQ==")], "\x7b\"url\": \"https://e\"\x7d"⟩ =
      (serverErrorResponse,
        (List.range 11).map (fun a => (shorten_url ("https://e") a, "x"))) :=
  (c3_collision_cap ("a") ((List.range 11).map (fun a => (shorten_url ("https://e") a, "x")))
      ⟨"POST", "/", [("Authorization", "Basic YQ==")], "\x7b\"url\": \"https://e\"\x7d"⟩
      ("https://e") (by decide) (by decide) (by decide)).1
    (fun a ha => by interval_cases a <;> exact ⟨"x", by decide, by decide⟩)

--
-- Claim C2
--

/-- Claim C2 (idempotent create): if a POST succeeds with status 200 against a
well-formed store, repeating the identical POST returns 200 with the same
short code in the body, leaves the store contents unchanged, and the store
holds exactly one entry for that code, not two. -/
theorem c2_idempotent_create (expected : String) (store : Store) (req : HttpRequest)
    (hwf : storeWF store)
    (h200 : (handle_post expected store req).1.status = 200) :
    (handle_post expected (handle_post expected store req).2 req).1.status = 200 ∧
    (handle_post expected (handle_post expected store req).2 req).1.body =
      (handle_post expected store req).1.body ∧
    (handle_post expected (handle_post expected store req).2 req).2 =
      (handle_post expected store req).2 ∧
    countKey (handle_post expected (handle_post expected store req).2 req).2
      (handle_post expected store req).1.body = 1 := by
  obtain ⟨hemp, hauth, url, c, hurl, hfc, heq⟩ := handle_post_200 expected store req h200
  have hfc2 : findCode (storeInsert store c url) url 0 11 = some c :=
    findCode_insert store url 11 0 c hfc
  have heq2 : handle_post expected (storeInsert store c url) req =
      (okResponse c, storeInsert (storeInsert store c url) c url) := by
    rw [handle_post_eq_of_auth expected (storeInsert store c url) req hemp hauth]
    simp only [hurl, hfc2]
  rw [heq]
  simp only at heq2 ⊢
  rw [heq2, storeInsert_insert]
  refine ⟨rfl, rfl, rfl, ?_⟩
  exact countKey_insert store c url hwf

/-- Witness for C2: repeating a concrete authenticated POST of `https://e`
returns the same code, changes nothing, and leaves one entry for the code. -/
theorem c2_idempotent_create_witness :
    (handle_post ("a")
        (handle_post ("a") []
          ⟨"POST", "/", [("Authorization", "Basic YQ==")],
            "\x7b\"url\": \"https://e\"\x7d"⟩).2
        ⟨"POST", "/", [("Authorization", "Basic YQ==")],
          "\x7b\"url\": \"https://e\"\x7d"⟩).1.status = 200 ∧
    (handle_post ("a")
        (handle_post ("a") []
          ⟨"POST", "/", [("Authorization", "Basic YQ==")],
            "\x7b\"url\": \"https://e\"\x7d"⟩).2
        ⟨"POST", "/", [("Authorization", "Basic YQ==")],
          "\x7b\"url\": \"https://e\"\x7d"⟩).1.body =
      (handle_post ("a") []
        ⟨"POST", "/", [("Authorization", "Basic YQ==")],
          "\x7b\"url\": \"https://e\"\x7d"⟩).1.body ∧
    (handle_post ("a")
        (handle_post ("a") []
          ⟨"POST", "/", [("Authorization", "Basic YQ==")],
            "\x7b\"url\": \"https://e\"\x7d"⟩).2
        ⟨"POST", "/", [("Authorization", "Basic YQ==")],
          "\x7b\"url\": \"https://e\"\x7d"⟩).2 =
      (handle_post ("a") []
        ⟨"POST", "/", [("Authorization", "Basic YQ==")],
          "\x7b\"url\": \"https://e\"\x7d"⟩).2 ∧
    countKey
      (handle_post ("a")
        (handle_post ("a") []
          ⟨"POST", "/", [("Authorization", "Basic YQ==")],
            "\x7b\"url\": \"https://e\"\x7d"⟩).2
        ⟨"POST", "/", [("Authorization", "Basic YQ==")],
          "\x7b\"url\": \"https://e\"\x7d"⟩).2
      (handle_post ("a") []
        ⟨"POST", "/", [("Authorization", "Basic YQ==")],
          "\x7b\"url\": \"https://e\"\x7d"⟩).1.body = 1 :=
  c2_idempotent_create ("a") []
    ⟨"POST", "/", [("Authorization", "Basic YQ==")], "\x7b\"url\": \"https://e\"\x7d"⟩
    (by decide) (by decide)

--
-- Claim C7
--

/-- Claim C7 (oversized body rejection): when the request line and headers
parse and the Content-Length value parses as an integer above the 100 KiB cap
(102400 bytes), `parse_req` fails with `OversizedBody` while consuming nothing
past the header region — no body bytes are read — and the error handler maps
the error to a 400 response. -/
theorem c7_oversized_body (data : List Nat) (m p : String) (rest1 : List Nat)
    (lim : Nat) (hdrs : List (String × String)) (rest2 : List Nat) (n : Nat)
    (hline : parseReqLine data = (.ok (m, p), rest1, lim))
    (hhdr : readHeaders rest1 lim = (.ok hdrs, rest2))
    (hcl : parseUsize ((findHeader hdrs ("Content-Length")).getD "0") = .ok n)
    (hbig : n > 102400) :
    parse_req data = (.error .OversizedBody, rest2) ∧
    (handle_err .OversizedBody).status = 400 := by
  constructor
  · unfold parse_req
    simp only [hline, hhdr, hcl]
    rw [if_pos hbig]
  · rfl

/-- Witness for C7: a concrete POST declaring Content-Length 200000 is
rejected with `OversizedBody` and the stream is left exactly at the end of the
headers. -/
theorem c7_oversized_body_witness :
    parse_req (strBytes ("POST / HTTP/1.1\r\nContent-Length: 200000\r\n\r\n")) =
      (.error .OversizedBody, []) ∧
    (handle_err .OversizedBody).status = 400 :=
  c7_oversized_body (strBytes ("POST / HTTP/1.1\r\nContent-Length: 200000\r\n\r\n"))
    ("POST") ("/") (strBytes ("Content-Length: 200000\r\n\r\n")) 8175
    [("Content-Length", "200000")] [] 200000
    (by decide) (by decide) (by decide) (by decide)

--
-- Claim C8 (corrected: an unparseable request line preempts ConnectionClosed)
--

/-- Counterexample for C8 as stated: the stream `"FOO /\r\n"` followed by 8193
junk bytes has its request line plus header lines exceed the 8192-byte
header-region cap before any empty line (`headerRegionOverflow` holds), yet
`parse_req` returns `InvalidMethod`, not `ConnectionClosed` — the method check
rejects the request line before the header loop ever runs. -/
theorem lineLen_replicate (k : Nat) : ∀ l, lineLen (List.replicate k 65) l = min k l := by
  induction k with
  | zero => intro l; cases l <;> simp [lineLen]
  | succ k ih =>
    intro l
    cases l with
    | zero => simp [lineLen]
    | succ l =>
      rw [List.replicate_succ]
      show lineLen (65 :: List.replicate k 65) (l + 1) = _
      simp only [lineLen]
      rw [if_neg (by decide)]
      rw [ih l]
      omega

theorem c8_header_cap_counterexample :
    headerRegionOverflow (strBytes ("FOO /\r\n") ++ List.replicate 8193 65) 8192 = true ∧
    (parse_req (strBytes ("FOO /\r\n") ++ List.replicate 8193 65)).1 =
      .error .InvalidMethod ∧
    (parse_req (strBytes ("FOO /\r\n") ++ List.replicate 8193 65)).1 ≠
      .error .ConnectionClosed := by
  have hbytes : strBytes ("FOO /\r\n") = [70, 79, 79, 32, 47, 13, 10] := by decide
  refine ⟨?_, by decide, by decide⟩
  rw [hbytes]
  rw [headerRegionOverflow_eq]
  have h1 : lineLen ([70, 79, 79, 32, 47, 13, 10] ++ List.replicate 8193 65) 8192 = 7 := by
    decide
  rw [h1, if_neg (by decide : ¬(7 = 0))]
  have htake : List.take 7 ([70, 79, 79, 32, 47, 13, 10] ++ List.replicate 8193 65) =
      [70, 79, 79, 32, 47, 13, 10] :=
    List.take_left [70, 79, 79, 32, 47, 13, 10] (List.replicate 8193 65)
  have hdrop : List.drop 7 ([70, 79, 79, 32, 47, 13, 10] ++ List.replicate 8193 65) =
      List.replicate 8193 65 :=
    List.drop_left [70, 79, 79, 32, 47, 13, 10] (List.replicate 8193 65)
  rw [htake, hdrop]
  rw [Bool.and_eq_true]
  refine ⟨by decide, ?_⟩
  rw [headerRegionOverflow_eq, lineLen_replicate]
  have hmin : min 8193 (8192 - 7) = 8185 := by norm_num
  rw [hmin, if_neg (by decide : ¬(8185 = 0))]
  have htake2 : List.take 8185 (List.replicate 8193 65) = List.replicate 8185 65 := by
    rw [List.take_replicate]
    norm_num
  have hdrop2 : List.drop 8185 (List.replicate 8193 65) = List.replicate 8 65 := by
    rw [List.drop_replicate]
  rw [htake2, hdrop2]
  rw [Bool.and_eq_true]
  refine ⟨?_, ?_⟩
  · apply decide_eq_true
    intro hcontra
    have h2 := congrArg List.length hcontra
    rw [List.length_replicate] at h2
    exact absurd h2 (by decide)
  · have harith : 8192 - 7 - 8185 = 0 := by norm_num
    rw [headerRegionOverflow_eq, harith]
    have h0 : lineLen (List.replicate 8 65) 0 = 0 := by decide
    rw [h0, if_pos rfl]
    decide

/-- Claim C8 as amended: for every byte stream whose request line parses (two
whitespace-separated tokens with method GET or POST) and whose capped header
region is then exhausted — the 8192-byte cap reached or the stream ended —
before the empty `"\r\n"` line, all lines being valid UTF-8, `parse_req`
returns `ConnectionClosed`. -/
theorem c8_header_cap (data : List Nat) (m p : String) (rest : List Nat) (lim : Nat)
    (hline : parseReqLine data = (.ok (m, p), rest, lim))
    (hnoterm : noTerminatorBeforeExhaustion rest lim = true) :
    (parse_req data).1 = .error .ConnectionClosed := by
  have hcc : ∀ L (d : List Nat), d.length ≤ L → ∀ l,
      noTerminatorBeforeExhaustion d l = true →
      (readHeaders d l).1 = .error .ConnectionClosed := by
    intro L
    induction L with
    | zero =>
      intro d hL l hn
      have hd : d = [] := List.length_eq_zero.mp (by omega)
      subst hd
      rw [readHeaders_eq]
      have h0 : lineLen [] l = 0 := by cases l <;> simp [lineLen]
      rw [if_pos h0]
    | succ L ih =>
      intro d hL l hn
      rw [readHeaders_eq]
      rw [noTerminatorBeforeExhaustion_eq] at hn
      by_cases h0 : lineLen d l = 0
      · rw [if_pos h0]
      · rw [if_neg h0] at hn ⊢
        cases hdec : utf8Decode (d.take (lineLen d l)) with
        | none =>
          simp only [hdec] at hn
          exact absurd hn (by decide)
        | some cs =>
          simp only [hdec] at hn ⊢
          rw [Bool.and_eq_true] at hn
          have hcs : cs ≠ ['\r', '\n'] := of_decide_eq_true hn.1
          rw [if_neg hcs]
          have hlen2 : (d.drop (lineLen d l)).length ≤ L := by
            have h1 := lineLen_le d l
            have h2 : d ≠ [] := lineLen_ne_zero d l h0
            have h3 : 0 < d.length := List.length_pos.mpr h2
            simp only [List.length_drop]
            omega
          have hrec := ih (d.drop (lineLen d l)) hlen2 (l - lineLen d l) hn.2
          cases hrh : readHeaders (d.drop (lineLen d l)) (l - lineLen d l) with
          | mk res rest2 =>
            cases res with
            | ok hs =>
              rw [hrh] at hrec
              simp at hrec
            | error e =>
              rw [hrh] at hrec
              simp only at hrec
              simp only [hrh]
              exact hrec
  unfold parse_req
  simp only [hline]
  cases hrh : readHeaders rest lim with
  | mk res rest2 =>
    have := hcc rest.length rest (le_refl _) lim hnoterm
    rw [hrh] at this
    simp only at this
    subst this
    simp only [hrh]

/-- Witness for the amended C8: a concrete GET whose headers are cut off
before the empty line yields `ConnectionClosed`. -/
theorem c8_header_cap_witness :
    (parse_req (strBytes ("GET / HTTP/1.1\r\nHost: x\r\n"))).1 =
      .error .ConnectionClosed :=
  c8_header_cap (strBytes ("GET / HTTP/1.1\r\nHost: x\r\n")) ("GET") ("/")
    (strBytes ("Host: x\r\n")) 8176 (by decide) (by decide)

end Crisco
